import Mathlib

/-!
Formal model of the TOML key-editing scripts of push-chain-node.

The repository carries three near-duplicate TOML editors:
  * src/deploy/toml_edit.py            (function update_key, plus main)
  * src/push-node-manager/scripts/toml_edit.py  (function set_nested_value)
  * src/validator/scripts/toml_edit.py (function edit_toml)

A TOML document is modelled as an ordered association list from string keys
to values (mirroring tomlkit's ordered container), values being strings,
booleans, integers, Python floats (modelled as exact rationals, since the
scripts only ever convert decimal literals and never compute with them), or
nested tables.  Python string helpers (str.lower, str.isdigit restricted to
ASCII, str.split, str.replace with count 1) are embedded explicitly over the
character list of a string.
-/

/-- Embeds Python `c in s` for a single character: membership of a character
in a character list. -/
def hasChar (c : Char) : List Char → Bool
  | [] => false
  | x :: xs => if x = c then true else hasChar c xs

/-- Embeds Python `'.' in key_path` from the scripts. -/
def pyContainsDot (s : String) : Bool := hasChar '.' s.data

/-- Removes the first occurrence of a character, mirroring Python
`s.replace(c, '', 1)` on the character list. -/
def removeFirstChar (c : Char) : List Char → List Char
  | [] => []
  | x :: xs => if x = c then xs else x :: removeFirstChar c xs

/-- Embeds Python `value.replace('.', '', 1)` from set_nested_value
(src/push-node-manager/scripts/toml_edit.py, line 55). -/
def pyRemoveFirstDot (s : String) : String := String.mk (removeFirstChar '.' s.data)

/-- Embeds Python `value.lower()` (ASCII case folding; the scripts only
compare against the ASCII literals "true" and "false"). -/
def pyLower (s : String) : String := String.mk (s.data.map Char.toLower)

/-- Embeds Python `s.isdigit()` restricted to ASCII digit strings: true for a
non-empty string of decimal digits. -/
def pyIsdigit (s : String) : Bool := !s.data.isEmpty && s.data.all Char.isDigit

/-- Value of a decimal digit list, used by the embeddings of Python `int(s)`
and `float(s)`. -/
def digitsToNat (l : List Char) : Nat :=
  l.foldl (fun n c => 10 * n + (c.toNat - 48)) 0

/-- Embeds Python `float(value)` on the only inputs set_nested_value feeds
it: strings of digits with exactly one dot.  The float is modelled as the
exact rational denoted by the decimal literal. -/
def pyFloatVal (s : String) : Rat :=
  let ip := s.data.takeWhile (fun c => c ≠ '.')
  let fp := (s.data.dropWhile (fun c => c ≠ '.')).drop 1
  (digitsToNat (ip ++ fp) : Rat) / ((10 : Rat) ^ fp.length)

/-- Splits a character list at every occurrence of `sep`, mirroring Python
`str.split(sep)` (which keeps empty pieces and returns one piece for an
input without the separator). -/
def splitCharList (sep : Char) : List Char → List (List Char)
  | [] => [[]]
  | c :: cs =>
    match splitCharList sep cs with
    | [] => [[]]
    | r :: rs => if c = sep then [] :: r :: rs else (c :: r) :: rs

/-- Embeds Python `key_path.split('.')` from all three scripts. -/
def pySplitDot (s : String) : List String :=
  (splitCharList '.' s.data).map (fun l => String.mk l)

/-- Embeds Python `'.'.join(parts)` from src/deploy/toml_edit.py, line 22. -/
def joinDot : List String → String
  | [] => ""
  | [a] => a
  | a :: b :: rest => a ++ "." ++ joinDot (b :: rest)

/-- A tomlkit value: string, boolean, integer, float (exact rational model)
or nested table.  A table is an ordered association list, mirroring
tomlkit's order-preserving container. -/
inductive TVal where
  | vStr (s : String)
  | vBool (b : Bool)
  | vInt (n : Int)
  | vFloat (q : Rat)
  | vTable (t : List (String × TVal))

/-- A parsed TOML document: tomlkit's top-level ordered table. -/
abbrev Doc := List (String × TVal)

/-- Embeds Python `container[k]` / `k in container` lookup on an ordered
table (first matching key wins; parsed TOML has unique keys). -/
def alookup {α : Type} : List (String × α) → String → Option α
  | [], _ => none
  | (k2, v) :: rest, k => if k2 = k then some v else alookup rest k

/-- Embeds Python `container[k] = v` on an ordered dict-like table: replaces
the value in place when the key exists, appends at the end otherwise. -/
def aset {α : Type} : List (String × α) → String → α → List (String × α)
  | [], k, v => [(k, v)]
  | (k2, v2) :: rest, k, v =>
    if k2 = k then (k, v) :: rest else (k2, v2) :: aset rest k v

/-- Reads the value at a dotted path of a document, descending through
tables; the observer used to state what the editors wrote. -/
def getPath (d : Doc) : List String → Option TVal
  | [] => some (.vTable d)
  | [k] => alookup d k
  | k :: r :: rs =>
    match alookup d k with
    | some (.vTable t) => getPath t (r :: rs)
    | _ => none

/-- Embeds the value-coercion chain of set_nested_value
(src/push-node-manager/scripts/toml_edit.py, lines 46-56): boolean literal
(case-insensitive), then all-digit integer, then digits with the first dot
removed, else the string unchanged. -/
def coerce (value : String) : TVal :=
  if pyLower value = "true" then .vBool true
  else if pyLower value = "false" then .vBool false
  else if pyIsdigit value then .vInt (Int.ofNat (digitsToNat value.data))
  else if pyIsdigit (pyRemoveFirstDot value) then .vFloat (pyFloatVal value)
  else .vStr value

/-- A Python exception escaping an editor body: the scripts raise TypeError
when they descend into (or assign into) a value that is not a table. -/
inductive PyExn where
  | typeError

/-- Recursion core of set_nested_value
(src/push-node-manager/scripts/toml_edit.py, lines 32-57): walks the interior
segments, creating a fresh `tomlkit.table()` for a missing segment, and sets
the final segment to the coerced value.  Descending into an existing
non-table value is modelled as the TypeError Python raises there. -/
def snvGo (v : String) : Doc → List String → Except PyExn Doc
  | d, [] => .ok d
  | d, [final] => .ok (aset d final (coerce v))
  | d, k :: r :: rs =>
    match alookup d k with
    | none =>
      match snvGo v [] (r :: rs) with
      | .ok t2 => .ok (aset d k (.vTable t2))
      | .error e => .error e
    | some (.vTable t) =>
      match snvGo v t (r :: rs) with
      | .ok t2 => .ok (aset d k (.vTable t2))
      | .error e => .error e
    | some _ => .error .typeError

/-- Embeds set_nested_value from src/push-node-manager/scripts/toml_edit.py
(lines 32-57): split the key path on dots and walk/create tables. -/
def set_nested_value (d : Doc) (key_path value : String) : Except PyExn Doc :=
  snvGo value d (pySplitDot key_path)

/-- Recursion core of edit_toml from src/validator/scripts/toml_edit.py
(lines 14-24): like set_nested_value it creates missing interior segments
(assigning `{}`, which tomlkit stores as a mapping node, modelled as an
empty table), but the final value is stored as the raw string, with no
coercion. -/
def etGo (v : String) : Doc → List String → Except PyExn Doc
  | d, [] => .ok d
  | d, [final] => .ok (aset d final (.vStr v))
  | d, k :: r :: rs =>
    match alookup d k with
    | none =>
      match etGo v [] (r :: rs) with
      | .ok t2 => .ok (aset d k (.vTable t2))
      | .error e => .error e
    | some (.vTable t) =>
      match etGo v t (r :: rs) with
      | .ok t2 => .ok (aset d k (.vTable t2))
      | .error e => .error e
    | some _ => .error .typeError

/-- Embeds the document mutation of edit_toml
(src/validator/scripts/toml_edit.py, lines 14-24). -/
def edit_toml_set (d : Doc) (key value : String) : Except PyExn Doc :=
  etGo value d (pySplitDot key)

/-- The failure cases of update_key (src/deploy/toml_edit.py): the four
printed-and-exit errors, plus the TypeError Python would raise when a path
descends into a non-table value (which update_key does not catch). -/
inductive EditErr where
  | sectionNotFound (part : String)
  | keyNotFoundInSection (k sec : String)
  | keyNotFound (k : String)
  | ambiguousKey (k : String)
  | pyTypeError (part : String)

/-- The message printed before `sys.exit(1)` for each handled failure of
update_key (src/deploy/toml_edit.py, lines 18, 22, 41, 44).  The
pyTypeError case never reaches a print in the script (the exception is
unhandled); its string here is a placeholder never used by the model of
main. -/
def errMessage : EditErr → String
  | .sectionNotFound part =>
      "Error: Section \x27" ++ part ++ "\x27 not found in the document."
  | .keyNotFoundInSection k sec =>
      "Error: Key \x27" ++ k ++ "\x27 not found in section \x27" ++ sec ++ "\x27."
  | .keyNotFound k =>
      "Error: Key \x27" ++ k ++ "\x27 not found in the document."
  | .ambiguousKey k =>
      "Error: Key \x27" ++ k ++ "\x27 found in multiple sections; please use dot notation to specify which one to update."
  | .pyTypeError _ => "TypeError"

/-- Recursion core of the dotted branch of update_key
(src/deploy/toml_edit.py, lines 11-26): walk the interior segments failing
on a missing one, then require the final key to exist before overwriting it
with the raw string value. `sec` is the precomputed dotted parent path used
in the final-key error message. -/
def ukDotted (v sec : String) : Doc → List String → Except EditErr Doc
  | _, [] => .error (.keyNotFound "")
  | d, [last] =>
    if (alookup d last).isSome then .ok (aset d last (.vStr v))
    else .error (.keyNotFoundInSection last sec)
  | d, part :: r :: rs =>
    match alookup d part with
    | none => .error (.sectionNotFound part)
    | some (.vTable t) =>
      match ukDotted v sec t (r :: rs) with
      | .ok t2 => .ok (aset d part (.vTable t2))
      | .error e => .error e
    | some _ => .error (.pyTypeError part)

/-- Embeds the bare-key table scan of update_key (src/deploy/toml_edit.py,
lines 33-38): the direct children of the root that are tables containing
the key, with their position and name (Python keeps object references; the
position lets the functional model write back to the same child). -/
def tablesWithKeyFrom (k : String) : Doc → Nat → List (Nat × String × Doc)
  | [], _ => []
  | (k2, v) :: rest, i =>
    match v with
    | .vTable t =>
      if (alookup t k).isSome then (i, k2, t) :: tablesWithKeyFrom k rest (i + 1)
      else tablesWithKeyFrom k rest (i + 1)
    | _ => tablesWithKeyFrom k rest (i + 1)

/-- The direct child tables of the root containing a key, in document
order. -/
def tablesWithKey (d : Doc) (k : String) : List (Nat × String × Doc) :=
  tablesWithKeyFrom k d 0

/-- Embeds update_key from src/deploy/toml_edit.py (lines 5-46).  A dotted
path is walked with ukDotted; a bare key is set at the top level when
present there, otherwise in the unique direct child table containing it,
with zero matches a key-not-found failure and several matches an ambiguity
failure.  The stored value is always the raw argument string. -/
def update_key (doc : Doc) (key_path new_value : String) : Except EditErr Doc :=
  if pyContainsDot key_path then
    ukDotted new_value (joinDot (pySplitDot key_path).dropLast) doc (pySplitDot key_path)
  else if (alookup doc key_path).isSome then
    .ok (aset doc key_path (.vStr new_value))
  else
    match tablesWithKey doc key_path with
    | [] => .error (.keyNotFound key_path)
    | [(i, k2, t)] => .ok (doc.set i (k2, .vTable (aset t key_path (.vStr new_value))))
    | _ => .error (.ambiguousKey key_path)

/-- The filesystem a script invocation sees: an association of paths to file
contents. -/
abbrev FS := List (String × String)

/-- The observable end of a script process: a handled exit with a code and a
printed message, or an exception escaping main (Python then prints a raw
traceback). -/
inductive MainOutcome where
  | exited (code : Nat) (msg : String)
  | uncaught (exn : String)

/-- Embeds main from src/deploy/toml_edit.py (lines 48-76), the pipeline
load, update_key, save.  `parseFn` and `dumpsFn` stand for tomlkit.parse
and tomlkit.dumps.  Modelled from the spec: tomlkit is a third-party
library not in src/; per the spec, parse fails on text that is not valid
TOML, and main wraps only the read in try/except, so a parse failure (and
a TypeError out of update_key) escapes as an unhandled exception. -/
def mainDeploy (parseFn : String → Except String Doc) (dumpsFn : Doc → String)
    (fs : FS) (argv : List String) : MainOutcome × FS :=
  match argv with
  | [filename, key_path, new_value] =>
    match alookup fs filename with
    | none => (.exited 1 ("Error: File " ++ filename ++ " not found."), fs)
    | some content =>
      match parseFn content with
      | .error msg => (.uncaught ("tomlkit ParseError: " ++ msg), fs)
      | .ok doc =>
        match update_key doc key_path new_value with
        | .error (.pyTypeError p) => (.uncaught ("TypeError at segment " ++ p), fs)
        | .error e => (.exited 1 (errMessage e), fs)
        | .ok doc2 =>
          (.exited 0 ("Updated \x27" ++ key_path ++ "\x27 to \x27" ++ new_value ++ "\x27 in " ++ filename),
           aset fs filename (dumpsFn doc2))
  | _ => (.exited 1 "Usage: toml_edit.py <config_file> <key> <new_value>", fs)

/-- Embeds edit_toml from src/validator/scripts/toml_edit.py (lines 8-35):
the whole body runs under try/except, every failure (missing file, parse
error, TypeError while setting) yields False with a printed message, and a
success writes the dumped document back.  tomlkit parse/dumps are the
spec-modelled parameters, as in mainDeploy. -/
def edit_toml (parseFn : String → Except String Doc) (dumpsFn : Doc → String)
    (fs : FS) (file_path key value : String) : (Bool × String) × FS :=
  match alookup fs file_path with
  | none =>
    ((false, "Error editing TOML: [Errno 2] No such file or directory: " ++ file_path), fs)
  | some content =>
    match parseFn content with
    | .error e => ((false, "Error editing TOML: " ++ e), fs)
    | .ok doc =>
      match edit_toml_set doc key value with
      | .error _ => ((false, "Error editing TOML: TypeError"), fs)
      | .ok doc2 =>
        ((true, "Updated " ++ key ++ " = " ++ value ++ " in " ++ file_path),
         aset fs file_path (dumpsFn doc2))

/-- Embeds the entry point of src/validator/scripts/toml_edit.py (lines
37-48): three arguments are required, and the process exits 0 when
edit_toml returns True and 1 otherwise. -/
def validatorMain (parseFn : String → Except String Doc) (dumpsFn : Doc → String)
    (fs : FS) (argv : List String) : MainOutcome × FS :=
  match argv with
  | [f, k, v] =>
    match edit_toml parseFn dumpsFn fs f k v with
    | ((true, msg), fs2) => (.exited 0 msg, fs2)
    | ((false, msg), fs2) => (.exited 1 msg, fs2)
  | _ => (.exited 1 "Usage: python3 toml_edit.py <file_path> <key> <value>", fs)

/-- A line of a TOML file as a style-preserving parser stores it: blank and
comment lines and table headers keep their text verbatim, a key-value line
is split at its first equals sign.  Modelled from the spec: tomlkit (not in
src/) parses "preserving comments/ordering" and serializes "preserving
comment/ordering annotations". -/
inductive TomlLine where
  | blank (text : List Char)
  | comment (text : List Char)
  | header (text : List Char)
  | kv (keyPart valPart : List Char)

/-- The exact text a stored line serializes back to. -/
def lineText : TomlLine → List Char
  | .blank t => t
  | .comment t => t
  | .header t => t
  | .kv a b => a ++ '=' :: b

/-- Horizontal whitespace, for line classification. -/
def isWsChar (c : Char) : Bool := c = ' ' || c = '\t' || c = '\r'

/-- Splits a list at the first occurrence of `c`, keeping both sides. -/
def breakAtFirst (c : Char) : List Char → Option (List Char × List Char)
  | [] => none
  | x :: xs =>
    if x = c then some ([], xs)
    else
      match breakAtFirst c xs with
      | some (a, b) => some (x :: a, b)
      | none => none

/-- Classifies one line of TOML text, keeping the text needed to reprint it
unchanged; a non-blank, non-comment, non-header line must carry an equals
sign, otherwise the line (and the document) is rejected as a parse error.
Modelled from the spec: the subset of TOML syntax the spec's documents
use. -/
def classifyLine (l : List Char) : Option TomlLine :=
  match l.dropWhile isWsChar with
  | [] => some (.blank l)
  | c :: rest =>
    if c = '#' then some (.comment l)
    else if c = '[' then
      match (c :: rest).reverse.dropWhile isWsChar with
      | ']' :: _ => some (.header l)
      | _ => none
    else
      match breakAtFirst '=' l with
      | some (a, b) => some (.kv a b)
      | none => none

/-- Classifies every line of a document, failing when any line fails. -/
def classifyAll : List (List Char) → Option (List TomlLine)
  | [] => some []
  | l :: ls =>
    match classifyLine l, classifyAll ls with
    | some t, some ts => some (t :: ts)
    | _, _ => none

/-- Joins pieces with a separator character, the inverse of
splitCharList. -/
def joinWith (sep : Char) : List (List Char) → List Char
  | [] => []
  | [l] => l
  | l :: l2 :: ls => l ++ sep :: joinWith sep (l2 :: ls)

namespace Tomlkit

/-- Modelled from the spec: tomlkit.parse, which "parses into a Document
preserving comments/ordering" and "fails with ParseError if the content is
not valid structured-document syntax".  The text is split into lines and
each line stored with enough verbatim text to reprint it. -/
def parse (x : String) : Option (List TomlLine) :=
  classifyAll (splitCharList '\n' x.data)

/-- Modelled from the spec: tomlkit.dumps, which "serializes the Document
back to text, preserving comment/ordering annotations". -/
def dumps (d : List TomlLine) : String :=
  String.mk (joinWith '\n' (d.map lineText))

end Tomlkit

theorem mk_data (s : String) : String.mk s.data = s := by
  cases s
  rfl

theorem alookup_aset_self {α : Type} (d : List (String × α)) (k : String) (v : α) :
    alookup (aset d k v) k = some v := by
  induction d with
  | nil => simp [aset, alookup]
  | cons hd tl ih =>
    obtain ⟨k2, v2⟩ := hd
    by_cases h : k2 = k
    · simp [aset, alookup, h]
    · simp [aset, alookup, h, ih]

theorem aset_of_not_mem {α : Type} (d : List (String × α)) (k : String) (v : α)
    (h : alookup d k = none) : aset d k v = d ++ [(k, v)] := by
  induction d with
  | nil => simp [aset]
  | cons hd tl ih =>
    obtain ⟨k2, v2⟩ := hd
    by_cases hk : k2 = k
    · simp [alookup, hk] at h
    · simp [alookup, hk] at h
      simp [aset, hk, ih h]

theorem splitCharList_no_sep (sep : Char) (l : List Char)
    (h : hasChar sep l = false) : splitCharList sep l = [l] := by
  induction l with
  | nil => rfl
  | cons c cs ih =>
    simp [hasChar] at h
    obtain ⟨h1, h2⟩ := h
    simp [splitCharList, ih h2, h1]

theorem pySplitDot_no_dot (k : String) (h : pyContainsDot k = false) :
    pySplitDot k = [k] := by
  unfold pyContainsDot at h
  unfold pySplitDot
  rw [splitCharList_no_sep '.' k.data h]
  simp [mk_data]

theorem dropLast_append_single {α : Type} (l : List α) (a : α) :
    (l ++ [a]).dropLast = l := by
  simp

/-- Interior segments of a path all resolve to existing tables, reaching
parent table `p`. -/
inductive Resolves : Doc → List String → Doc → Prop where
  | nil (d : Doc) : Resolves d [] d
  | cons (d : Doc) (k : String) (t : Doc) (rest : List String) (p : Doc) :
      alookup d k = some (.vTable t) → Resolves t rest p →
      Resolves d (k :: rest) p

theorem snvGo_ok (v : String) :
    ∀ (interior : List String) (d p : Doc) (final : String), Resolves d interior p →
      ∃ d2, snvGo v d (interior ++ [final]) = .ok d2 ∧
        getPath d2 (interior ++ [final]) = some (coerce v) := by
  intro interior
  induction interior with
  | nil =>
    intro d p final _
    refine ⟨aset d final (coerce v), rfl, ?_⟩
    simp [getPath, alookup_aset_self]
  | cons k rest ih =>
    intro d p final hres
    cases hres with
    | cons _ _ t _ _ hlk hrest =>
      obtain ⟨t2, hgo, hget⟩ := ih t p final hrest
      refine ⟨aset d k (.vTable t2), ?_, ?_⟩
      · cases hr : rest ++ [final] with
        | nil => exact absurd hr (by simp)
        | cons r0 rtail =>
          rw [hr] at hgo
          simp only [List.cons_append, hr, snvGo, hlk, hgo]
      · cases hr : rest ++ [final] with
        | nil => exact absurd hr (by simp)
        | cons r0 rtail =>
          rw [hr] at hget
          simp only [List.cons_append, hr, getPath, alookup_aset_self, hget]

theorem etGo_ok (v : String) :
    ∀ (interior : List String) (d p : Doc) (final : String), Resolves d interior p →
      ∃ d2, etGo v d (interior ++ [final]) = .ok d2 ∧
        getPath d2 (interior ++ [final]) = some (.vStr v) := by
  intro interior
  induction interior with
  | nil =>
    intro d p final _
    refine ⟨aset d final (.vStr v), rfl, ?_⟩
    simp [getPath, alookup_aset_self]
  | cons k rest ih =>
    intro d p final hres
    cases hres with
    | cons _ _ t _ _ hlk hrest =>
      obtain ⟨t2, hgo, hget⟩ := ih t p final hrest
      refine ⟨aset d k (.vTable t2), ?_, ?_⟩
      · cases hr : rest ++ [final] with
        | nil => exact absurd hr (by simp)
        | cons r0 rtail =>
          rw [hr] at hgo
          simp only [List.cons_append, hr, etGo, hlk, hgo]
      · cases hr : rest ++ [final] with
        | nil => exact absurd hr (by simp)
        | cons r0 rtail =>
          rw [hr] at hget
          simp only [List.cons_append, hr, getPath, alookup_aset_self, hget]

theorem ukDotted_ok (v sec : String) :
    ∀ (interior : List String) (d p : Doc) (final : String), Resolves d interior p →
      ((alookup p final).isSome = true →
        ∃ d2, ukDotted v sec d (interior ++ [final]) = .ok d2 ∧
          getPath d2 (interior ++ [final]) = some (.vStr v)) ∧
      (alookup p final = none →
        ukDotted v sec d (interior ++ [final]) = .error (.keyNotFoundInSection final sec)) := by
  intro interior
  induction interior with
  | nil =>
    intro d p final hres
    cases hres with
    | nil =>
      constructor
      · intro hsome
        refine ⟨aset d final (.vStr v), ?_, ?_⟩
        · simp only [List.nil_append, ukDotted, hsome, if_true]
        · simp [getPath, alookup_aset_self]
      · intro hnone
        simp only [List.nil_append, ukDotted, hnone, Option.isSome_none]
        rfl
  | cons k rest ih =>
    intro d p final hres
    cases hres with
    | cons _ _ t _ _ hlk hrest =>
      obtain ⟨ihsome, ihnone⟩ := ih t p final hrest
      constructor
      · intro hsome
        obtain ⟨t2, hgo, hget⟩ := ihsome hsome
        refine ⟨aset d k (.vTable t2), ?_, ?_⟩
        · cases hr : rest ++ [final] with
          | nil => exact absurd hr (by simp)
          | cons r0 rtail =>
            rw [hr] at hgo
            simp only [List.cons_append, hr, ukDotted, hlk, hgo]
        · cases hr : rest ++ [final] with
          | nil => exact absurd hr (by simp)
          | cons r0 rtail =>
            rw [hr] at hget
            simp only [List.cons_append, hr, getPath, alookup_aset_self, hget]
      · intro hnone
        have hgo := ihnone hnone
        cases hr : rest ++ [final] with
        | nil => exact absurd hr (by simp)
        | cons r0 rtail =>
          rw [hr] at hgo
          simp only [List.cons_append, hr, ukDotted, hlk, hgo]

theorem ukDotted_sectionMissing (v sec : String) :
    ∀ (pre : List String) (d p : Doc) (seg : String) (more : List String),
      Resolves d pre p → alookup p seg = none → more ≠ [] →
      ukDotted v sec d (pre ++ seg :: more) = .error (.sectionNotFound seg) := by
  intro pre
  induction pre with
  | nil =>
    intro d p seg more hres hmiss hne
    cases hres with
    | nil =>
      cases more with
      | nil => exact absurd rfl hne
      | cons m ms => simp only [List.nil_append, ukDotted, hmiss]
  | cons k rest ih =>
    intro d p seg more hres hmiss hne
    cases hres with
    | cons _ _ t _ _ hlk hrest =>
      have hgo := ih t p seg more hrest hmiss hne
      cases hr : rest ++ seg :: more with
      | nil => exact absurd hr (by simp)
      | cons r0 rtail =>
        rw [hr] at hgo
        simp only [List.cons_append, hr, ukDotted, hlk, hgo]

theorem breakAtFirst_eq (c : Char) :
    ∀ (l a b : List Char), breakAtFirst c l = some (a, b) → l = a ++ c :: b := by
  intro l
  induction l with
  | nil => intro a b h; simp [breakAtFirst] at h
  | cons x xs ih =>
    intro a b h
    by_cases hx : x = c
    · simp [breakAtFirst, hx] at h
      obtain ⟨ha, hb⟩ := h
      subst ha; subst hb; subst hx
      rfl
    · simp only [breakAtFirst, hx, if_false] at h
      cases hb : breakAtFirst c xs with
      | none => rw [hb] at h; simp at h
      | some p =>
        obtain ⟨a2, b2⟩ := p
        rw [hb] at h
        simp at h
        obtain ⟨ha, hbb⟩ := h
        subst ha; subst hbb
        simp [ih a2 b2 hb]

theorem classifyLine_text (l : List Char) (t : TomlLine)
    (h : classifyLine l = some t) : lineText t = l := by
  unfold classifyLine at h
  split at h
  · simp only [Option.some.injEq] at h; subst h; rfl
  · split at h
    · simp only [Option.some.injEq] at h; subst h; rfl
    · split at h
      · split at h
        · simp only [Option.some.injEq] at h; subst h; rfl
        · simp at h
      · split at h
        · rename_i a b hbk
          simp only [Option.some.injEq] at h
          subst h
          simp [lineText, (breakAtFirst_eq '=' l a b hbk).symm]
        · simp at h

theorem classifyAll_text :
    ∀ (ls : List (List Char)) (ds : List TomlLine),
      classifyAll ls = some ds → ds.map lineText = ls := by
  intro ls
  induction ls with
  | nil => intro ds h; simp [classifyAll] at h; subst h; rfl
  | cons l rest ih =>
    intro ds h
    unfold classifyAll at h
    cases hl : classifyLine l with
    | none => rw [hl] at h; simp at h
    | some t =>
      cases hr : classifyAll rest with
      | none => rw [hl, hr] at h; simp at h
      | some ts =>
        rw [hl, hr] at h
        simp at h
        subst h
        simp [classifyLine_text l t hl, ih ts hr]

theorem splitCharList_ne_nil (sep : Char) (l : List Char) :
    splitCharList sep l ≠ [] := by
  cases l with
  | nil => simp [splitCharList]
  | cons c cs =>
    unfold splitCharList
    split
    · simp
    · split <;> simp

theorem joinWith_splitCharList (sep : Char) :
    ∀ (l : List Char), joinWith sep (splitCharList sep l) = l := by
  intro l
  induction l with
  | nil => rfl
  | cons c cs ih =>
    unfold splitCharList
    cases hs : splitCharList sep cs with
    | nil => exact absurd hs (splitCharList_ne_nil sep cs)
    | cons r rs =>
      rw [hs] at ih
      by_cases hc : c = sep
      · simp only [hc, if_true, joinWith, ih, List.nil_append]
      · simp only [hc, if_false]
        cases rs with
        | nil => simp only [joinWith] at ih ⊢; rw [ih]
        | cons r2 rs2 => simp only [joinWith, List.cons_append] at ih ⊢; rw [ih]

/-- C1 counterexample: the claim says every edit stores the coerced value,
so the raw value "true" is stored as boolean true; but update_key
(src/deploy/toml_edit.py) stores the raw argument string unchanged, so the
stored value is the string "true", not the boolean. -/
theorem C1_counterexample :
    update_key [("flag", TVal.vStr "old")] "flag" "true" =
      .ok [("flag", TVal.vStr "true")] ∧
    TVal.vStr "true" ≠ TVal.vBool true :=
  ⟨rfl, fun h => TVal.noConfusion h⟩

/-- C1 (amended): set_nested_value (push-node-manager) coerces the raw
value in the priority order boolean, integer, float, else string unchanged
("true" to boolean true, "42" to integer 42, "3.14" to float 3.14,
"localhost:26657" kept a string); update_key (deploy) instead always stores
the raw string unchanged. -/
theorem C1_coercion_amended :
    set_nested_value [] "k" "true" = .ok [("k", TVal.vBool true)] ∧
    set_nested_value [] "k" "42" = .ok [("k", TVal.vInt 42)] ∧
    set_nested_value [] "k" "3.14" = .ok [("k", TVal.vFloat (3.14 : Rat))] ∧
    set_nested_value [] "k" "localhost:26657" =
      .ok [("k", TVal.vStr "localhost:26657")] ∧
    (∀ s : String, pyLower s ≠ "true" → pyLower s ≠ "false" →
      pyIsdigit s = false → pyIsdigit (pyRemoveFirstDot s) = false →
      coerce s = .vStr s) ∧
    (∀ (d : Doc) (k v : String), pyContainsDot k = false →
      set_nested_value d k v = .ok (aset d k (coerce v))) ∧
    (∀ (d : Doc) (k v : String), pyContainsDot k = false →
      (alookup d k).isSome = true →
      update_key d k v = .ok (aset d k (.vStr v))) := by
  refine ⟨rfl, rfl, ?_, rfl, ?_, ?_, ?_⟩
  · have h1 : set_nested_value [] "k" "3.14" =
        .ok [("k", TVal.vFloat (((314 : Nat) : Rat) / (10 : Rat) ^ (2 : Nat)))] := rfl
    rw [h1]
    norm_num
  · intro s h1 h2 h3 h4
    simp [coerce, h1, h2, h3, h4]
  · intro d k v hnd
    unfold set_nested_value
    rw [pySplitDot_no_dot k hnd]
    rfl
  · intro d k v hnd htop
    simp [update_key, hnd, htop]

/-- C1 witness: a concrete value matching no coercion rule is stored as the
unchanged string. -/
theorem C1_witness : coerce "node-07x" = TVal.vStr "node-07x" :=
  C1_coercion_amended.2.2.2.2.1 "node-07x" (by decide) (by decide) (by decide) (by decide)

/-- C2: for a bare key (no dot), update_key (src/deploy/toml_edit.py)
updates the key at the top level when present there; otherwise, when the
key occurs in exactly one direct child table, it updates that single
occurrence; and with zero child-table occurrences (and not at top level) it
fails with the key-not-found error. -/
theorem C2_bare_key (d : Doc) (k v : String) (hnd : pyContainsDot k = false) :
    ((alookup d k).isSome = true →
      update_key d k v = .ok (aset d k (.vStr v))) ∧
    (alookup d k = none → ∀ (i : Nat) (tk : String) (t : Doc),
      tablesWithKey d k = [(i, tk, t)] →
      update_key d k v = .ok (d.set i (tk, .vTable (aset t k (.vStr v))))) ∧
    (alookup d k = none → tablesWithKey d k = [] →
      update_key d k v = .error (.keyNotFound k)) := by
  refine ⟨?_, ?_, ?_⟩
  · intro htop
    simp [update_key, hnd, htop]
  · intro htop i tk t hone
    simp [update_key, hnd, htop, hone]
  · intro htop hzero
    simp [update_key, hnd, htop, hzero]

/-- C2 witness: a key present in exactly one child table is updated in that
table. -/
theorem C2_witness :
    update_key [("a", TVal.vTable [("p", TVal.vStr "1")])] "p" "2" =
      .ok [("a", TVal.vTable [("p", TVal.vStr "2")])] := by
  have h := (C2_bare_key [("a", TVal.vTable [("p", TVal.vStr "1")])] "p" "2" rfl).2.1
    rfl 0 "a" [("p", TVal.vStr "1")] rfl
  exact h

/-- C3: a bare key found in more than one direct child table and not at the
top level makes update_key (src/deploy/toml_edit.py) fail with the
ambiguity error, whose message says dot notation must be used to pick the
section; main then exits 1 without writing, so the document on disk is
unmodified. -/
theorem C3_ambiguous (d : Doc) (k v : String)
    (hnd : pyContainsDot k = false) (htop : alookup d k = none)
    (x y : Nat × String × Doc) (rest : List (Nat × String × Doc))
    (hmulti : tablesWithKey d k = x :: y :: rest) :
    update_key d k v = .error (.ambiguousKey k) ∧
    errMessage (.ambiguousKey k) =
      "Error: Key \x27" ++ k ++
        "\x27 found in multiple sections; please use dot notation to specify which one to update." ∧
    ∀ (parseFn : String → Except String Doc) (dumpsFn : Doc → String)
      (fs : FS) (filename content : String),
      alookup fs filename = some content → parseFn content = .ok d →
      mainDeploy parseFn dumpsFn fs [filename, k, v] =
        (.exited 1 (errMessage (.ambiguousKey k)), fs) := by
  have hupd : update_key d k v = .error (.ambiguousKey k) := by
    simp [update_key, hnd, htop, hmulti]
  refine ⟨hupd, rfl, ?_⟩
  intro parseFn dumpsFn fs filename content hread hparse
  simp [mainDeploy, hread, hparse, hupd]

/-- C3 witness: two sections both holding "timeout" make the bare-key edit
fail as ambiguous. -/
theorem C3_witness :
    update_key [("a", TVal.vTable [("timeout", TVal.vInt 1)]),
                ("b", TVal.vTable [("timeout", TVal.vInt 2)])] "timeout" "5" =
      .error (.ambiguousKey "timeout") :=
  (C3_ambiguous [("a", TVal.vTable [("timeout", TVal.vInt 1)]),
                 ("b", TVal.vTable [("timeout", TVal.vInt 2)])] "timeout" "5"
    rfl rfl (0, "a", [("timeout", TVal.vInt 1)]) (1, "b", [("timeout", TVal.vInt 2)])
    [] rfl).1

/-- C4 counterexample: the claim says that once the interior segments
resolve to tables the final segment is set unconditionally and its prior
existence cannot cause a failure, and that the stored value is coerced; but
update_key (src/deploy/toml_edit.py, lines 21-24) fails when the final key
does not already exist, and when it exists it stores the raw string (here
"42" stays a string rather than becoming integer 42). -/
theorem C4_counterexample :
    update_key [("a", TVal.vTable [])] "a.b" "x" =
      .error (.keyNotFoundInSection "b" "a") ∧
    update_key [("a", TVal.vTable [("b", TVal.vStr "old")])] "a.b" "42" =
      .ok [("a", TVal.vTable [("b", TVal.vStr "42")])] ∧
    TVal.vStr "42" ≠ TVal.vInt 42 :=
  ⟨rfl, rfl, fun h => TVal.noConfusion h⟩

/-- C4 (amended): for a dotted path whose interior segments resolve to
existing tables, set_nested_value (push-node-manager) sets the final
segment to the coerced value unconditionally, with no check of the prior
value; update_key (deploy) requires the final key to already exist —
failing with the key-not-found-in-section error when it is absent — and
when it exists overwrites it with the raw string, without checking the
prior value's type. -/
theorem C4_final_segment_amended (d p : Doc) (key_path v final : String)
    (interior : List String)
    (hsplit : pySplitDot key_path = interior ++ [final])
    (hres : Resolves d interior p) :
    (∃ d2, set_nested_value d key_path v = .ok d2 ∧
      getPath d2 (interior ++ [final]) = some (coerce v)) ∧
    (pyContainsDot key_path = true →
      ((alookup p final).isSome = true →
        ∃ d2, update_key d key_path v = .ok d2 ∧
          getPath d2 (interior ++ [final]) = some (.vStr v)) ∧
      (alookup p final = none →
        update_key d key_path v =
          .error (.keyNotFoundInSection final (joinDot interior)))) := by
  constructor
  · unfold set_nested_value
    rw [hsplit]
    exact snvGo_ok v interior d p final hres
  · intro hdot
    have hsec : joinDot (pySplitDot key_path).dropLast = joinDot interior := by
      rw [hsplit, dropLast_append_single]
    have huk := ukDotted_ok v (joinDot interior) interior d p final hres
    constructor
    · intro hsome
      obtain ⟨d2, hgo, hget⟩ := huk.1 hsome
      refine ⟨d2, ?_, hget⟩
      unfold update_key
      rw [hdot]
      simp only [if_true, hsec, hsplit, dropLast_append_single, hgo]
    · intro hnone
      have hgo := huk.2 hnone
      unfold update_key
      rw [hdot]
      simp only [if_true, hsec, hsplit, dropLast_append_single, hgo]

/-- C4 witness: with table "a" present, the edit of "a.b" through
set_nested_value succeeds and the written value is readable at the path. -/
theorem C4_witness :
    ∃ d2, set_nested_value [("a", TVal.vTable [("b", TVal.vStr "old")])] "a.b" "x" =
        .ok d2 ∧
      getPath d2 ["a", "b"] = some (TVal.vStr "x") := by
  have h := (C4_final_segment_amended
    [("a", TVal.vTable [("b", TVal.vStr "old")])] [("b", TVal.vStr "old")]
    "a.b" "x" "b" ["a"] rfl
    (Resolves.cons _ "a" [("b", TVal.vStr "old")] [] _ rfl (Resolves.nil _))).1
  exact h

/-- C5: under update_key's fail-if-missing policy, a dotted path whose
first unresolved interior segment is absent makes the deploy pipeline exit
1 with the section-not-found message naming that segment, returning the
filesystem unchanged: the save step is never reached. -/
theorem C5_missing_interior
    (parseFn : String → Except String Doc) (dumpsFn : Doc → String)
    (fs : FS) (filename content key_path v : String) (d p : Doc)
    (pre : List String) (seg : String) (more : List String)
    (hread : alookup fs filename = some content)
    (hparse : parseFn content = .ok d)
    (hdot : pyContainsDot key_path = true)
    (hsplit : pySplitDot key_path = pre ++ seg :: more)
    (hmore : more ≠ [])
    (hres : Resolves d pre p)
    (hmiss : alookup p seg = none) :
    mainDeploy parseFn dumpsFn fs [filename, key_path, v] =
      (.exited 1 ("Error: Section \x27" ++ seg ++ "\x27 not found in the document."), fs) := by
  have hupd : update_key d key_path v = .error (.sectionNotFound seg) := by
    unfold update_key
    rw [hdot]
    simp only [if_true, hsplit]
    exact ukDotted_sectionMissing v _ pre d p seg more hres hmiss hmore
  simp [mainDeploy, hread, hparse, hupd, errMessage]

/-- C5 witness: editing "does.not.exist" on a document with no "does" table
exits 1 naming "does" and leaves the file contents untouched. -/
theorem C5_witness :
    mainDeploy (fun _ => .ok []) (fun _ => "") [("config.toml", "x = 1")]
        ["config.toml", "does.not.exist", "x"] =
      (.exited 1 "Error: Section \x27does\x27 not found in the document.",
       [("config.toml", "x = 1")]) := by
  have h := C5_missing_interior (fun _ => .ok []) (fun _ => "")
    [("config.toml", "x = 1")] "config.toml" "x = 1" "does.not.exist" "x" [] []
    [] "does" ["not", "exist"] rfl rfl rfl rfl (List.cons_ne_nil _ _)
    (Resolves.nil _) rfl
  exact h

/-- C6: in the create-missing editors, editing "p2p.laddr" on a document
with no "p2p" table appends a fresh "p2p" table holding "laddr" set to the
string "tcp://0.0.0.0:26656" (the value matches no coercion rule, so it
stays a string), in both set_nested_value (push-node-manager) and
edit_toml (validator). -/
theorem C6_create_missing (d : Doc) (hno : alookup d "p2p" = none) :
    set_nested_value d "p2p.laddr" "tcp://0.0.0.0:26656" =
      .ok (d ++ [("p2p", TVal.vTable [("laddr", TVal.vStr "tcp://0.0.0.0:26656")])]) ∧
    edit_toml_set d "p2p.laddr" "tcp://0.0.0.0:26656" =
      .ok (d ++ [("p2p", TVal.vTable [("laddr", TVal.vStr "tcp://0.0.0.0:26656")])]) := by
  have hsp : pySplitDot "p2p.laddr" = ["p2p", "laddr"] := rfl
  have hco : coerce "tcp://0.0.0.0:26656" = TVal.vStr "tcp://0.0.0.0:26656" := rfl
  constructor
  · unfold set_nested_value
    rw [hsp]
    simp only [snvGo, hno, hco]
    rw [aset_of_not_mem d "p2p" _ hno]
    rfl
  · unfold edit_toml_set
    rw [hsp]
    simp only [etGo, hno]
    rw [aset_of_not_mem d "p2p" _ hno]
    rfl

/-- C6 witness: the creation on a concrete document with another table. -/
theorem C6_witness :
    set_nested_value [("rpc", TVal.vTable [])] "p2p.laddr" "tcp://0.0.0.0:26656" =
      .ok [("rpc", TVal.vTable []),
           ("p2p", TVal.vTable [("laddr", TVal.vStr "tcp://0.0.0.0:26656")])] := by
  have h := (C6_create_missing [("rpc", TVal.vTable [])] rfl).1
  exact h

/-- C7 counterexample: the claim says no error escapes as an unhandled
fault; but main of src/deploy/toml_edit.py wraps only the file read in
try/except, so on invalid TOML content tomlkit's parse failure escapes main
as an unhandled exception (raw traceback) instead of a handled exit. -/
theorem C7_counterexample :
    mainDeploy (fun _ => .error "ParseError") (fun _ => "")
        [("config.toml", "][")] ["config.toml", "k", "v"] =
      (.uncaught "tomlkit ParseError: ParseError", [("config.toml", "][")]) :=
  rfl

/-- C7 (amended): every failure of the validator script is caught and
reported via exit code 1 with a printed message naming the cause (missing
file, parse error, TypeError while setting), never an escaping exception;
deploy's missing-file and key-resolution failures likewise exit 1 with a
message naming the cause; only a parse failure (or a TypeError while
descending a path) in the deploy script escapes main unhandled. -/
theorem C7_error_handling_amended
    (parseFn : String → Except String Doc) (dumpsFn : Doc → String)
    (fs : FS) (argv : List String) :
    (∀ (o : MainOutcome) (fs2 : FS),
      validatorMain parseFn dumpsFn fs argv = (o, fs2) →
      ∃ (c : Nat) (m : String), o = .exited c m) ∧
    (∀ f k v msg fs2, argv = [f, k, v] →
      edit_toml parseFn dumpsFn fs f k v = ((false, msg), fs2) →
      validatorMain parseFn dumpsFn fs argv = (.exited 1 msg, fs2)) ∧
    (∀ f k v, argv = [f, k, v] → alookup fs f = none →
      validatorMain parseFn dumpsFn fs argv =
        (.exited 1 ("Error editing TOML: [Errno 2] No such file or directory: " ++ f),
         fs)) ∧
    (∀ f k v content e, argv = [f, k, v] → alookup fs f = some content →
      parseFn content = .error e →
      validatorMain parseFn dumpsFn fs argv =
        (.exited 1 ("Error editing TOML: " ++ e), fs)) ∧
    (∀ f k v content doc ex, argv = [f, k, v] → alookup fs f = some content →
      parseFn content = .ok doc → edit_toml_set doc k v = .error ex →
      validatorMain parseFn dumpsFn fs argv =
        (.exited 1 "Error editing TOML: TypeError", fs)) ∧
    (∀ filename k v, argv = [filename, k, v] → alookup fs filename = none →
      mainDeploy parseFn dumpsFn fs argv =
        (.exited 1 ("Error: File " ++ filename ++ " not found."), fs)) ∧
    (∀ filename k v content d e, argv = [filename, k, v] →
      alookup fs filename = some content → parseFn content = .ok d →
      update_key d k v = .error e → (∀ part, e ≠ .pyTypeError part) →
      mainDeploy parseFn dumpsFn fs argv = (.exited 1 (errMessage e), fs)) := by
  refine ⟨?_, ?_, ?_, ?_, ?_, ?_, ?_⟩
  · intro o fs2 h
    rcases argv with _ | ⟨f, rest1⟩
    · simp only [validatorMain, Prod.mk.injEq] at h
      exact ⟨1, _, h.1.symm⟩
    rcases rest1 with _ | ⟨k, rest2⟩
    · simp only [validatorMain, Prod.mk.injEq] at h
      exact ⟨1, _, h.1.symm⟩
    rcases rest2 with _ | ⟨v, rest3⟩
    · simp only [validatorMain, Prod.mk.injEq] at h
      exact ⟨1, _, h.1.symm⟩
    rcases rest3 with _ | ⟨w, rest4⟩
    · rcases het : edit_toml parseFn dumpsFn fs f k v with ⟨⟨b, msg⟩, fs3⟩
      simp only [validatorMain, het] at h
      cases b with
      | true =>
        simp only [Prod.mk.injEq] at h
        exact ⟨0, msg, h.1.symm⟩
      | false =>
        simp only [Prod.mk.injEq] at h
        exact ⟨1, msg, h.1.symm⟩
    · simp only [validatorMain, Prod.mk.injEq] at h
      exact ⟨1, _, h.1.symm⟩
  · intro f k v msg fs2 hargv het
    subst hargv
    simp only [validatorMain, het]
  · intro f k v hargv hmiss
    subst hargv
    simp [validatorMain, edit_toml, hmiss]
  · intro f k v content e hargv hread hparse
    subst hargv
    simp [validatorMain, edit_toml, hread, hparse]
  · intro f k v content doc ex hargv hread hparse hset
    subst hargv
    simp [validatorMain, edit_toml, hread, hparse, hset]
  · intro filename k v hargv hmiss
    subst hargv
    simp [mainDeploy, hmiss]
  · intro filename k v content d e hargv hread hparse hupd hne
    subst hargv
    cases e with
    | sectionNotFound part => simp [mainDeploy, hread, hparse, hupd]
    | keyNotFoundInSection k2 sec => simp [mainDeploy, hread, hparse, hupd]
    | keyNotFound k2 => simp [mainDeploy, hread, hparse, hupd]
    | ambiguousKey k2 => simp [mainDeploy, hread, hparse, hupd]
    | pyTypeError part => exact absurd rfl (hne part)

/-- C7 witness: the validator pipeline on content that fails to parse
exits 1 with the caught-error message and leaves the file contents
untouched. -/
theorem C7_witness :
    validatorMain (fun _ => .error "bad syntax") (fun _ => "")
        [("c.toml", "][")] ["c.toml", "k", "v"] =
      (.exited 1 "Error editing TOML: bad syntax", [("c.toml", "][")]) :=
  (C7_error_handling_amended (fun _ => .error "bad syntax") (fun _ => "")
    [("c.toml", "][")] ["c.toml", "k", "v"]).2.2.2.1 "c.toml" "k" "v" "][" "bad syntax"
    rfl rfl rfl

/-- C8: parsing a valid document and serializing it with no edits returns
the input text byte for byte (comments and ordering are stored verbatim in
the line model and reprinted unchanged). -/
theorem C8_roundtrip (x : String) (d : List TomlLine)
    (h : Tomlkit.parse x = some d) : Tomlkit.dumps d = x := by
  unfold Tomlkit.parse at h
  unfold Tomlkit.dumps
  rw [classifyAll_text _ _ h, joinWith_splitCharList, mk_data]

/-- C8 witness: a concrete document with a comment, a header and a
key-value line round-trips byte for byte. -/
theorem C8_witness :
    Tomlkit.parse "# c\n[p2p]\nladdr = 1" =
      some [TomlLine.comment ("# c".data), TomlLine.header ("[p2p]".data),
            TomlLine.kv ("laddr ".data) (" 1".data)] ∧
    Tomlkit.dumps [TomlLine.comment ("# c".data), TomlLine.header ("[p2p]".data),
            TomlLine.kv ("laddr ".data) (" 1".data)] = "# c\n[p2p]\nladdr = 1" :=
  ⟨rfl, C8_roundtrip "# c\n[p2p]\nladdr = 1" _ rfl⟩

/-- C9: in set_nested_value (push-node-manager) and edit_toml (validator) a
bare key is always set directly at the document root — appended there when
absent, so a same-named key nested in a child table is never searched for,
never updated, and no ambiguity or key-not-found error can arise. -/
theorem C9_bare_key_root (d : Doc) (k v : String)
    (hnd : pyContainsDot k = false) :
    set_nested_value d k v = .ok (aset d k (coerce v)) ∧
    edit_toml_set d k v = .ok (aset d k (.vStr v)) ∧
    (alookup d k = none →
      set_nested_value d k v = .ok (d ++ [(k, coerce v)]) ∧
      edit_toml_set d k v = .ok (d ++ [(k, .vStr v)])) := by
  have hs : pySplitDot k = [k] := pySplitDot_no_dot k hnd
  refine ⟨?_, ?_, ?_⟩
  · unfold set_nested_value
    rw [hs]
    rfl
  · unfold edit_toml_set
    rw [hs]
    rfl
  · intro hno
    constructor
    · unfold set_nested_value
      rw [hs]
      simp only [snvGo]
      rw [aset_of_not_mem d k _ hno]
    · unfold edit_toml_set
      rw [hs]
      simp only [etGo]
      rw [aset_of_not_mem d k _ hno]

/-- C9 witness: with "laddr" existing only inside the "p2p" child table,
the bare-key edit appends a new top-level "laddr" and leaves the nested one
unchanged. -/
theorem C9_witness :
    set_nested_value [("p2p", TVal.vTable [("laddr", TVal.vStr "x")])] "laddr" "y" =
      .ok [("p2p", TVal.vTable [("laddr", TVal.vStr "x")]), ("laddr", TVal.vStr "y")] := by
  have h := ((C9_bare_key_root [("p2p", TVal.vTable [("laddr", TVal.vStr "x")])]
    "laddr" "y" rfl).2.2 rfl).1
  exact h

/-- C10: set_nested_value coerces to float exactly when the value is
neither boolean literal nor all digits but removing the first dot leaves a
non-empty digit string; ".5" becomes float 0.5 and "5." float 5.0, while
"-3.5" and "1.2.3" stay strings. -/
theorem C10_float_rule :
    (∀ s : String, (∃ q, coerce s = TVal.vFloat q) ↔
      (pyLower s ≠ "true" ∧ pyLower s ≠ "false" ∧ pyIsdigit s = false ∧
       pyIsdigit (pyRemoveFirstDot s) = true)) ∧
    coerce ".5" = TVal.vFloat ((1 : Rat) / 2) ∧
    coerce "5." = TVal.vFloat (5 : Rat) ∧
    coerce "-3.5" = TVal.vStr "-3.5" ∧
    coerce "1.2.3" = TVal.vStr "1.2.3" ∧
    (∀ d : Doc,
      set_nested_value d "x" ".5" = .ok (aset d "x" (TVal.vFloat ((1 : Rat) / 2)))) := by
  have hc5 : coerce ".5" = TVal.vFloat ((1 : Rat) / 2) := by
    have h : coerce ".5" = TVal.vFloat (((5 : Nat) : Rat) / (10 : Rat) ^ (1 : Nat)) := rfl
    rw [h]
    norm_num
  refine ⟨?_, hc5, ?_, rfl, rfl, ?_⟩
  · intro s
    unfold coerce
    split_ifs with h1 h2 h3 h4 <;> simp_all
  · have h : coerce "5." = TVal.vFloat (((5 : Nat) : Rat) / (10 : Rat) ^ (0 : Nat)) := rfl
    rw [h]
    norm_num
  · intro d
    unfold set_nested_value
    have hs : pySplitDot "x" = ["x"] := rfl
    rw [hs]
    simp only [snvGo, hc5]

/-- C10 witness: "0.5" coerces to a float, and a full edit stores ".5" as
the float one half. -/
theorem C10_witness :
    (∃ q, coerce "0.5" = TVal.vFloat q) ∧
    set_nested_value [] "x" ".5" = .ok [("x", TVal.vFloat ((1 : Rat) / 2))] := by
  constructor
  · exact (C10_float_rule.1 "0.5").mpr ⟨by decide, by decide, by decide, by decide⟩
  · exact C10_float_rule.2.2.2.2.2 []
